import Mathlib

/-!
Verification development for the Agentic-Research-Framework research pipeline
(`Research Team/` sources).  Python strings are modelled as `List Char`;
Python dictionaries with string keys and string values are modelled as
association lists; external text-generation capabilities (semantic-kernel
`invoke` calls) are modelled as oracle function parameters, with a capability
exception folded into the oracle returning the corresponding `"Error: ..."`
text, exactly as the surrounding `try/except` blocks convert them.
-/

/-- Python strings, modelled as lists of characters. -/
abbrev Str := List Char

/-- Python whitespace test used by `str.strip()` / `\s` (ASCII range). -/
def isWs (c : Char) : Bool := c.isWhitespace

/-- Python `s.strip()`: drop whitespace from both ends. -/
def pyStrip (s : Str) : Str :=
  ((s.dropWhile isWs).reverse.dropWhile isWs).reverse

/-- Python `s.startswith(p)`. -/
def pyStartsWith (p s : Str) : Bool := List.isPrefixOf p s

/-- Python `sub in s` (substring containment). -/
def pyContains (sub : Str) : Str → Bool
  | [] => sub.isEmpty
  | c :: rest => List.isPrefixOf sub (c :: rest) || pyContains sub rest

/-- The part of `s` strictly before the first occurrence of `sep`
(all of `s` when `sep` does not occur): Python `s.split(sep)[0]`. -/
def beforeFirstSub (sep : Str) : Str → Str
  | [] => []
  | c :: rest =>
    if List.isPrefixOf sep (c :: rest) then []
    else c :: beforeFirstSub sep rest

/-- The part of `s` strictly after the first occurrence of `sep`
(empty when `sep` does not occur). -/
def afterFirstSub (sep : Str) : Str → Str
  | [] => []
  | c :: rest =>
    if List.isPrefixOf sep (c :: rest) then List.drop sep.length (c :: rest)
    else afterFirstSub sep rest

/-- Fuel-driven worker for Python `s.split(sep)` with a non-empty separator
`c0 :: cs` (leftmost, non-overlapping).  The fuel is always instantiated with
the length of the input, which suffices because every step consumes at least
one character. -/
def pySplitGo (c0 : Char) (cs : Str) : Nat → Str → List Str
  | _, [] => [[]]
  | 0, xs => [xs]
  | fuel + 1, x :: rest =>
    if List.isPrefixOf (c0 :: cs) (x :: rest) then
      [] :: pySplitGo c0 cs fuel (List.drop cs.length rest)
    else
      match pySplitGo c0 cs fuel rest with
      | [] => [[x]]
      | p :: ps => (x :: p) :: ps

/-- Python `s.split(sep)` for a non-empty separator string. -/
def pySplitS (sep xs : Str) : List Str :=
  match sep with
  | [] => [xs]
  | c0 :: cs => pySplitGo c0 cs xs.length xs

/-- Python `s.split(sep)` for a single-character separator. -/
def splitChar (sep : Char) : Str → List Str
  | [] => [[]]
  | c :: rest =>
    if c = sep then [] :: splitChar sep rest
    else
      match splitChar sep rest with
      | [] => [[c]]
      | p :: ps => (c :: p) :: ps

/-- Python `sep.join(parts)`. -/
def pyJoin (sep : Str) : List Str → Str
  | [] => []
  | [p] => p
  | p :: q :: rest => p ++ sep ++ pyJoin sep (q :: rest)

/-- Python `s.replace(old, new)` (all occurrences, left to right). -/
def pyReplace (old new s : Str) : Str := pyJoin new (pySplitS old s)

/-- Python `s.lower()` (ASCII case folding suffices for the texts involved). -/
def lowerS (s : Str) : Str := s.map Char.toLower

/-- Python `s.split()`: split on whitespace runs, discarding empty pieces.
`cur` carries the current word, reversed. -/
def pyWordsGo (cur : Str) : Str → List Str
  | [] => if cur.isEmpty then [] else [cur.reverse]
  | c :: rest =>
    if isWs c then
      if cur.isEmpty then pyWordsGo [] rest
      else cur.reverse :: pyWordsGo [] rest
    else pyWordsGo (c :: cur) rest

/-- Python `s.split()` (no separator argument). -/
def pyWords (s : Str) : List Str := pyWordsGo [] s

/-- Python `s.rstrip(c)` for a single strip character. -/
def rstripChar (a : Char) (s : Str) : Str :=
  (s.reverse.dropWhile (fun c => c = a)).reverse

/-- Python `s.lstrip(chars)` for a set of strip characters. -/
def lstripChars (chars : Str) (s : Str) : Str :=
  s.dropWhile (fun c => chars.contains c)

/-- Codepoint-wise `<=` on strings, as Python string comparison. -/
def strLe : Str → Str → Bool
  | [], _ => true
  | _ :: _, [] => false
  | a :: as, b :: bs =>
    if a < b then true
    else if a = b then strLe as bs
    else false

/-! ## Data model

`Citation` mirrors the `{"title": ..., "url": ...}` dictionaries produced by
the web-search plugin; both keys are always present on the records the
pipeline builds, so a structure is faithful here.  `ResearchOutput` mirrors
the `{"task", "content", "citations"}` dictionaries built in
`_handle_research_phase`, `CritiquedDoc` the `{"task", "original",
"critique", "citations"}` dictionaries built in `_handle_critique_phase`.
The `docs_for_synthesis` records are kept as genuine key-value association
lists (`PyDict`), because `SynthesiserAgent._format_critiques_for_prompt`
reads them through `dict.get` with keys that need not be present. -/

structure Citation where
  title : Str
  url : Str
deriving DecidableEq

structure ResearchOutput where
  task : Str
  content : Str
  citations : List Citation
deriving DecidableEq

structure CritiquedDoc where
  task : Str
  original : Str
  critique : Str
  citations : List Citation
deriving DecidableEq

/-- A Python dict with string keys and string values, as a key-value list
(keys are distinct in every dict the code builds). -/
abbrev PyDict := List (Str × Str)

/-- Python `d.get(k, default)`. -/
def pyGet (d : PyDict) (k default : Str) : Str :=
  match d.find? (fun kv => kv.1 == k) with
  | some kv => kv.2
  | none => default

/-! ## Plan Task Extractor (`agents/planner_agent.py`, lines 57-111)

`extract_research_tasks_from_plan` filters plan lines through two regexes:

* specific: `\s*\d*\.\s*\[ResearchAgent\]\s*Search for:\s*['\"](?P<query>.*?)['\"]`
  (`re.search`, `re.IGNORECASE`);
* general: `\s*\d*\.\s*\[ResearchAgent\]\s*(?P<task>.*)` (`re.search`,
  `re.IGNORECASE`), whose captured remainder is then probed with the anchored
  `re.match` pattern `Search for:\s*['\"](?P<query>.*?)['\"]`.

Both patterns contain no alternation and every starred atom draws from a
character class disjoint from the literal that follows it, so the regex
engine's leftmost-match-with-backtracking semantics coincides with a
maximal-munch scan tried at each start position from the left.  The model
below implements exactly that scan. -/

/-- The literal task tag `[ResearchAgent]`. -/
def resTag : Str := "[ResearchAgent]".data

/-- Case-insensitive "is a prefix of" (regex `IGNORECASE` on ASCII). -/
def ciPre : Str → Str → Bool
  | [], _ => true
  | _ :: _, [] => false
  | a :: as, b :: bs => (a.toLower == b.toLower) && ciPre as bs

/-- Attempt the mandatory core `\s*\d*\.\s*\[ResearchAgent\]` at the start
of `s`; on success return the text following the tag. -/
def matchDotTag (s : Str) : Option Str :=
  match (s.dropWhile isWs).dropWhile Char.isDigit with
  | [] => none
  | c :: rest =>
    if c = '.' then
      if ciPre resTag (rest.dropWhile isWs) then
        some ((rest.dropWhile isWs).drop resTag.length)
      else none
    else none

/-- The lazy group `(?P<query>.*?)` followed by `['\"]`: the characters up to
the first quote, failing when no quote occurs (or a newline intervenes,
which `.` cannot match). -/
def takeToQuote : Str → Option Str
  | [] => none
  | c :: rest =>
    if c = '\'' ∨ c = '"' then some []
    else if c = '\n' then none
    else (takeToQuote rest).map (fun q => c :: q)

/-- The anchored pattern `Search for:\s*['\"](?P<query>.*?)['\"]`
(`re.match`, `re.IGNORECASE`), as used on the captured general remainder. -/
def matchInnerSearch (s : Str) : Option Str :=
  if ciPre "search for:".data s then
    let r := (s.drop 11).dropWhile isWs
    match r with
    | [] => none
    | q :: rest => if q = '\'' ∨ q = '"' then takeToQuote rest else none
  else none

/-- The tail `\s*Search for:\s*['\"](?P<query>.*?)['\"]` of the specific
pattern, applied to the text following the tag. -/
def matchSearchTail (s : Str) : Option Str := matchInnerSearch (s.dropWhile isWs)

/-- One start position of the specific pattern. -/
def matchSpecific (s : Str) : Option Str :=
  match matchDotTag s with
  | some afterTag => matchSearchTail afterTag
  | none => none

/-- `re.search`: try the matcher at every start position, left to right. -/
def searchPos (m : Str → Option Str) : Str → Option Str
  | [] => m []
  | c :: rest =>
    match m (c :: rest) with
    | some r => some r
    | none => searchPos m rest

/-- Processing of one (already stripped) plan line inside the
`extract_research_tasks_from_plan` loop: returns the task description that
the loop appends, if any.  The captured general-pattern group is the text
after the tag with leading whitespace eaten by `\s*` and stopped at a
newline (which `.*` cannot cross), then `.strip()`-ed as on line 95. -/
def processStrippedLine (line : Str) : Option Str :=
  if pyContains resTag line then
    match searchPos matchSpecific line with
    | some q => if (pyStrip q).isEmpty then none else some (pyStrip q)
    | none =>
      match searchPos matchDotTag line with
      | some afterTag =>
        match matchInnerSearch
            (pyStrip ((afterTag.dropWhile isWs).takeWhile (fun c => c ≠ '\n'))) with
        | some q => if (pyStrip q).isEmpty then none else some (pyStrip q)
        | none =>
          if (pyStrip ((afterTag.dropWhile isWs).takeWhile (fun c => c ≠ '\n'))).isEmpty then
            none
          else some (pyStrip ((afterTag.dropWhile isWs).takeWhile (fun c => c ≠ '\n')))
      | none => if line.isEmpty then none else some line
  else none

/-- One iteration of the line loop: `line = line.strip()` then the tag and
pattern processing. -/
def processTaskLine (raw : Str) : Option Str := processStrippedLine (pyStrip raw)

/-- `PlannerAgent.extract_research_tasks_from_plan`
(`agents/planner_agent.py`, lines 57-111). -/
def extract_research_tasks_from_plan (plan_text : Str) : List Str :=
  if plan_text.isEmpty || pyStartsWith "Error:".data plan_text then []
  else (splitChar '\n' (pyStrip plan_text)).filterMap processTaskLine

/-! ## Critique agent (`agents/critique_agent.py`, lines 39-61) -/

/-- `CritiqueAgent.critique_document`; `invoke` is the text-generation
capability (`str(result)` of the kernel invocation; an exception is folded
into the oracle returning the `"Error: Could not critique..."` text the
`except` branch builds). -/
def critique_document (invoke : Str → Str → Str) (task text : Str) : Str :=
  if text.isEmpty || pyStartsWith "Error:".data text then
    "Critique Skipped for Task: ".data ++ task ++
    "\nReason: Document content is empty or an error message from a previous step.\nDocument Content Provided: ".data ++
    text.take 100 ++ "...".data
  else pyStrip (invoke task text)

/-- `ResearchOrchestrator._handle_critique_phase`
(`orchestrator/research_orchestrator.py`, lines 237-266): one appended
record per research output, in order. -/
def handle_critique_phase (invoke : Str → Str → Str) (ros : List ResearchOutput) :
    List CritiquedDoc :=
  ros.map (fun r =>
    { task := r.task
      original := r.content
      critique := critique_document invoke r.task r.content
      citations := r.citations })

/-! ## Synthesiser agent (`agents/synthesiser_agent.py`, lines 40-85) -/

/-- `SynthesiserAgent._format_critiques_for_prompt` (lines 40-55).  Note the
key it reads: `item.get('critique_text', 'N/A')`. -/
def format_critiques_for_prompt (critiqued_documents : List PyDict) : Str :=
  if critiqued_documents.isEmpty then "No critiqued documents were provided.\n".data
  else
    (critiqued_documents.enum.map (fun p =>
      "Critiqued Document ".data ++ (Nat.repr (p.1 + 1)).data ++ ":\n".data ++
      "Original Task: ".data ++ pyGet p.2 "original_task".data "N/A".data ++ "\n".data ++
      (let c := pyGet p.2 "critique_text".data "N/A".data
       if pyStartsWith "Critique Skipped for Task".data c then
         "Critique Status: Skipped or Errored\nDetails: ".data ++ c ++ "\n".data
       else
         "Critique:\n".data ++ c ++ "\n".data) ++
      "---\n".data)).flatten

/-- `SynthesiserAgent.synthesise_research` (lines 57-85); `invoke` is the
synthesis capability (`str(result)` of the kernel invocation, exceptions
folded into the oracle's text as in the `except` branch). -/
def synthesise_research (invoke : Str → Str → Str) (overall_user_query : Str)
    (critiqued_documents : List PyDict) : Str :=
  if critiqued_documents.isEmpty then
    "Error: No critiqued documents provided for synthesis.".data
  else
    let formatted := format_critiques_for_prompt critiqued_documents
    if (pySplitS "---".data formatted).all
        (fun f_item => pyContains "Critique Status: Skipped or Errored".data f_item)
        && !critiqued_documents.isEmpty then
      "Error: All document critiques were skipped or resulted in errors. Cannot synthesise from: ".data
        ++ formatted
    else pyStrip (invoke overall_user_query formatted)

/-! ## Citation aggregation (`orchestrator/research_orchestrator.py`, lines 280-372) -/

/-- The citation-collecting loop at the start of `_handle_synthesis_phase`
(lines 281-287): `all_citations.extend(doc_citations)` per document (the
`isinstance`/key checks always succeed on the records the critique phase
builds). -/
def collect_all_citations (critiqued_documents : List CritiquedDoc) : List Citation :=
  critiqued_documents.foldl (fun acc d => acc ++ d.citations) []

/-- The document-conversion loop of `_handle_synthesis_phase` (lines
294-303): each critique-phase record is repackaged as a dict with keys
`content`, `original_task`, `original_content`. -/
def docs_for_synthesis (critiqued_documents : List CritiquedDoc) : List PyDict :=
  critiqued_documents.map (fun d =>
    [("content".data, d.critique),
     ("original_task".data, d.task),
     ("original_content".data, d.original)])

/-- URL cleaning inside the deduplication loop of `_handle_synthesis_phase`
(lines 324-336): strip a `"?utm_source="`-anchored suffix outright, else for
URLs with a `?` and a `&utm_`/`&amp;utm_` marker drop the tracking
parameters of the segment between the first and second `?`. -/
def clean_citation_url (url : Str) : Str :=
  if pyContains "?utm_source=".data url then
    beforeFirstSub "?utm_source=".data url
  else if pyContains ['?'] url &&
      (pyContains "&utm_".data url || pyContains "&amp;utm_".data url) then
    let base_url := beforeFirstSub ['?'] url
    let params := splitChar '&' (beforeFirstSub ['?'] (afterFirstSub ['?'] url))
    let non_tracking_params := params.filter (fun p =>
      !pyStartsWith "utm_".data p && !pyStartsWith "amp;utm_".data p)
    if !non_tracking_params.isEmpty then
      base_url ++ ['?'] ++ pyJoin ['&'] non_tracking_params
    else base_url
  else url

/-- The tracking-parameter filter of the list comprehension on line 332,
factored out for the lemmas below (definitionally the same test). -/
def nonTrackingPred (p : Str) : Bool :=
  !pyStartsWith "utm_".data p && !pyStartsWith "amp;utm_".data p

/-- Title synthesis for empty/generic titles (lines 339-350): when the title
is falsy or a generic placeholder and the clean URL contains `"://"`, build
`"Article from <domain>: <path>"`, or `"Source: <domain>"` for an empty
path; otherwise the title is kept as-is. -/
def synthesize_citation_title (title clean_url : Str) : Str :=
  if title.isEmpty ||
      (lowerS title == "source".data || lowerS title == "untitled source".data ||
       lowerS title == "untitled".data) then
    if pyContains "://".data clean_url then
      let domain := beforeFirstSub ['/'] (beforeFirstSub "://".data (afterFirstSub "://".data clean_url))
      let path := beforeFirstSub ['?'] (pyJoin ['/'] ((splitChar '/' clean_url).drop 3))
      if !path.isEmpty then
        "Article from ".data ++ domain ++ ": ".data ++ path
      else
        "Source: ".data ++ domain
    else title
  else title

/-- The `unique_citations` dict-building loop (lines 320-355), with the dict
modelled as an insertion-ordered key-record list: a citation is added only
when its cleaned URL is truthy (non-empty) and not already a key. -/
def merge_citations_loop : List Citation → List (Str × Citation) → List (Str × Citation)
  | [], acc => acc
  | c :: rest, acc =>
    let clean_url := clean_citation_url c.url
    if !clean_url.isEmpty && (acc.find? (fun kv => kv.1 == clean_url)).isNone then
      merge_citations_loop rest
        (acc ++ [(clean_url,
          { title := synthesize_citation_title c.title clean_url, url := clean_url })])
    else merge_citations_loop rest acc

/-- `sorted(unique_citations.values(), key=lambda x: x.get("title", "").lower())`
(lines 357-361); Python's `sorted` is a stable merge sort. -/
def sorted_citations (all_citations : List Citation) : List Citation :=
  ((merge_citations_loop all_citations []).map Prod.snd).mergeSort
    (fun a b => strLe (lowerS a.title) (lowerS b.title))

/-- `ResearchOrchestrator._handle_synthesis_phase`
(`orchestrator/research_orchestrator.py`, lines 268-377); `invoke` is the
synthesis capability handed through to `synthesise_research`. -/
def handle_synthesis_phase (invoke : Str → Str → Str) (current_query : Str)
    (critiqued_documents : List CritiquedDoc) : Str :=
  let all_citations := collect_all_citations critiqued_documents
  let dfs := docs_for_synthesis critiqued_documents
  if dfs.isEmpty then "Error: No critiqued documents provided for synthesis.".data
  else
    let synthesized_report := synthesise_research invoke current_query dfs
    if !pyStartsWith "Error:".data synthesized_report && !all_citations.isEmpty then
      let synthesized_report := synthesized_report ++ "\n\n## Sources and Citations\n\n".data
      let sorted := sorted_citations all_citations
      if !sorted.isEmpty then
        synthesized_report ++
          (sorted.enum.map (fun p =>
            (Nat.repr (p.1 + 1)).data ++ ". [".data ++ p.2.title ++ "](".data ++
            p.2.url ++ ")\n".data)).flatten
      else
        synthesized_report ++ "*No citations were found for this report.*\n".data
    else synthesized_report

/-! ## Report assembler (`agents/writer_agent.py`, lines 41-113)

`format_report_as_markdown` splits off a trailing `"## Sources and
Citations"` block, runs the formatting capability on the remaining body, and
reattaches the block after removing at most one duplicate reference-style
heading.  The capability invocation together with the subsequent
`str(result).strip()` and `_clean_json_format` cleanup is modelled as the
single oracle `fmt` (a total text-to-text function, as the composition is in
the source); the claims about this phase quantify over every capability
output, so nothing is lost by the composition. -/

/-- The duplicate-reference heading list (line 85), checked in order. -/
def reference_sections : List Str :=
  ["## References".data, "## Sources".data, "## Bibliography".data,
   "## Sources and Citations".data]

/-- The section heading the orchestrator appends and the writer preserves. -/
def scHeading : Str := "## Sources and Citations".data

/-- The `for section in reference_sections: if section in clean_text: ...
break` loop of lines 88-93: the first heading found (in list order) has the
text truncated at its first occurrence, `parts[0].strip()`. -/
def remove_duplicate_reference_section (clean_text : Str) : Str :=
  match reference_sections.find? (fun s => pyContains s clean_text) with
  | some s => pyStrip ((pySplitS s clean_text).headD [])
  | none => clean_text

/-- `WriterAgent.format_report_as_markdown` (lines 41-101, success path of
the `try`; a capability exception instead takes the fallback path of lines
103-113, which is not involved in the claims below). -/
def format_report_as_markdown (fmt : Str → Str → Str) (user_query : Str)
    (synthesized_report_text : Str) : Str :=
  let synthesized_report_text :=
    if synthesized_report_text.isEmpty then
      "Notice: No content was provided for the synthesized report. The research process may have encountered an issue or yielded no information.".data
    else synthesized_report_text
  let split_state :=
    if pyContains scHeading synthesized_report_text then
      let report_parts := pySplitS scHeading synthesized_report_text
      (pyStrip (report_parts.headD []),
       if report_parts.length > 1 then scHeading ++ report_parts.getD 1 [] else [])
    else (synthesized_report_text, [])
  let clean_text := fmt user_query split_state.1
  if !split_state.2.isEmpty then
    remove_duplicate_reference_section clean_text ++ "\n\n".data ++ split_state.2
  else clean_text

/-! ## Clarification insights (`utils/text_utils.py`, lines 4-34) -/

/-- The interrogative/filler stop list of `extract_clarification_insights`. -/
def insightStopWords : List Str :=
  ["what".data, "when".data, "where".data, "which".data, "would".data,
   "could".data, "should".data, "about".data, "interested".data,
   "specific".data, "there".data, "these".data, "those".data]

/-- `extract_clarification_insights` (`utils/text_utils.py`, lines 4-34). -/
def extract_clarification_insights (clarification_questions : Str) : Str :=
  if clarification_questions.isEmpty || (pyStrip clarification_questions).isEmpty then []
  else
    let questions_text := pyStrip (pyReplace "QUESTIONS:".data [] clarification_questions)
    let questions := (splitChar '\n' questions_text).filterMap (fun l =>
      let line := pyStrip l
      match line with
      | [] => none
      | c :: _ =>
        if c.isDigit || c == '-' || c == '*' then
          some (lstripChars "0123456789.-* ".data line)
        else none)
    let questions :=
      if questions.isEmpty then
        (splitChar '?' questions_text).filterMap (fun q =>
          if (pyStrip q).isEmpty then none else some (pyStrip q ++ ['?']))
      else questions
    questions.foldl (fun insights q =>
      let q := rstripChar '?' q
      let terms := ((pyWords q).filter (fun term =>
        3 < term.length && !(insightStopWords.contains (lowerS term)))).map pyStrip
      if !terms.isEmpty then
        insights ++ "- Consider exploring: ".data ++ pyJoin ", ".data terms ++ "\n".data
      else insights)
      "Additional research guidance based on potential clarifications:\n".data

/-! ## Pipeline orchestration (`orchestrator/research_orchestrator.py`, lines 63-235)

The phase methods are `async` but the control flow is strictly sequential,
so they embed as plain functions over oracle capabilities. -/

/-- The value returned by a research capability call: either the new
dict-with-citations format or the legacy plain string
(`_handle_research_phase`, lines 215-233). -/
inductive ResearchRet where
  | dict (text : Str) (citations : List Citation)
  | legacy (s : Str)

/-- The external capabilities and interactive collaborators consumed by one
pipeline run, as oracles (section 6 of the spec). -/
structure PipelineOracles where
  genQuestions : Str → Str
  uiClarifications : Str → Str
  genPlan : Str → Str
  clarifyQuery : Str → Str → Str
  research : Str → Option Str → Str → ResearchRet
  critique : Str → Str → Str
  synth : Str → Str → Str
  fmt : Str → Str → Str

/-- `_handle_clarification_phase` (lines 114-140): returns
`(current_query, clarification_insights)`; the insights component is the
literal `""` on every return path. -/
def handle_clarification_phase (o : PipelineOracles) (initial_query : Str) : Str × Str :=
  let clarifying_questions := o.genQuestions initial_query
  if pyStartsWith "Error:".data clarifying_questions then (initial_query, [])
  else
    let user_clarifications := o.uiClarifications clarifying_questions
    let current_query :=
      if !(pyStrip user_clarifications).isEmpty then
        initial_query ++ "\n\nAdditional clarifications provided by user:\n".data
          ++ user_clarifications
      else initial_query
    (current_query, [])

/-- The value returned by `_handle_planning_phase` (lines 142-184): every
branch returns the plan string alone, except the `QUESTIONS:` branch with
non-empty insights, which returns the two-element tuple
`(initial_plan_str, new_insights)` (line 176). -/
inductive PlanPhaseResult where
  | plan (p : Str)
  | planWithInsights (p insights : Str)
deriving DecidableEq

/-- `_handle_planning_phase` (lines 142-184). -/
def handle_planning_phase (o : PipelineOracles) (current_query : Str) : PlanPhaseResult :=
  let initial_plan_str := o.genPlan current_query
  if pyStartsWith "Error:".data initial_plan_str then .plan initial_plan_str
  else
    let clarification_output := o.clarifyQuery current_query initial_plan_str
    if pyContains "CLARIFICATION_NOT_NEEDED".data clarification_output then
      .plan initial_plan_str
    else if pyStartsWith "QUESTIONS:".data clarification_output then
      let new_insights := extract_clarification_insights clarification_output
      if !new_insights.isEmpty then .planWithInsights initial_plan_str new_insights
      else .plan initial_plan_str
    else .plan initial_plan_str

/-- `_handle_research_phase` (lines 186-235): one recorded output per
extracted task, in order; every research call receives
`search_query_for_web=None` and `additional_guidance=clarification_insights`. -/
def handle_research_phase (o : PipelineOracles) (current_plan clarification_insights : Str) :
    List ResearchOutput :=
  (extract_research_tasks_from_plan current_plan).map (fun task =>
    match o.research task none clarification_insights with
    | .dict text citations => { task := task, content := text, citations := citations }
    | .legacy s => { task := task, content := s, citations := [] })

/-- Outcome of `execute_research_pipeline` (lines 63-112).  `attributeError`
models the `AttributeError` Python raises on line 77 when
`_handle_planning_phase` has returned the two-element tuple and the caller
evaluates `current_plan.startswith("Error:")` on it. -/
inductive PipelineResult where
  | success (guidance_used : Str) (final_report : Str)
  | errorReport (msg : Str)
  | attributeError
deriving DecidableEq

/-- `execute_research_pipeline` (lines 63-112); the success payload records
the `additional_guidance` value every research call received, alongside the
final report. -/
def execute_research_pipeline (o : PipelineOracles) (initial_query : Str) : PipelineResult :=
  let clar := handle_clarification_phase o initial_query
  let current_query := clar.1
  let clarification_insights := clar.2
  match handle_planning_phase o current_query with
  | .planWithInsights _ _ => .attributeError
  | .plan current_plan =>
    if pyStartsWith "Error:".data current_plan then .errorReport current_plan
    else
      let research_outputs := handle_research_phase o current_plan clarification_insights
      if research_outputs.isEmpty then
        .errorReport "No research tasks were identified/executed. Cannot proceed to critique.".data
      else
        let critiqued_documents := handle_critique_phase o.critique research_outputs
        if critiqued_documents.isEmpty then
          .errorReport "No documents were successfully critiqued. Cannot proceed to synthesis.".data
        else
          let synthesized_report := handle_synthesis_phase o.synth current_query critiqued_documents
          if pyStartsWith "Error:".data synthesized_report then .errorReport synthesized_report
          else
            .success clarification_insights
              (format_report_as_markdown o.fmt initial_query synthesized_report)

/-- A concrete oracle bundle on which the planning-clarity capability
answers with a `QUESTIONS:` reply (used to exercise the `QUESTIONS:` branch
of `_handle_planning_phase`). -/
def questionsOracles : PipelineOracles :=
  { genQuestions := fun _ => "Error: questions unavailable".data
    uiClarifications := fun _ => []
    genPlan := fun _ => "1. [ResearchAgent] Find key facts".data
    clarifyQuery := fun _ _ => "QUESTIONS:\n1. What timeframe matters?".data
    research := fun _ _ _ => .legacy []
    critique := fun _ _ => []
    synth := fun _ _ => []
    fmt := fun _ _ => [] }

set_option maxRecDepth 10000

/-! ## Basic facts about the string model -/

/-- `List.isPrefixOf` agrees with the existence of a completing suffix. -/
theorem isPrefixOf_eq_true_iff {s t : Str} :
    List.isPrefixOf s t = true ↔ ∃ r, t = s ++ r := by
  induction s generalizing t with
  | nil => simp [List.isPrefixOf]
  | cons a as ih =>
    cases t with
    | nil => simp [List.isPrefixOf]
    | cons b bs =>
      simp only [List.isPrefixOf, Bool.and_eq_true, beq_iff_eq, ih, List.cons_append,
        List.cons.injEq]
      constructor
      · rintro ⟨rfl, r, rfl⟩; exact ⟨r, rfl, rfl⟩
      · rintro ⟨r, rfl, rfl⟩; exact ⟨rfl, r, rfl⟩

theorem isPrefixOf_append_self (s t : Str) : List.isPrefixOf s (s ++ t) = true :=
  isPrefixOf_eq_true_iff.mpr ⟨t, rfl⟩

theorem mem_of_isPrefixOf {s t : Str} (h : List.isPrefixOf s t = true) {c : Char}
    (hc : c ∈ s) : c ∈ t := by
  obtain ⟨r, rfl⟩ := isPrefixOf_eq_true_iff.mp h
  exact List.mem_append_left r hc

/-- `pyContains` agrees with the existence of a substring decomposition. -/
theorem pyContains_iff {sub s : Str} :
    pyContains sub s = true ↔ ∃ u v, s = u ++ sub ++ v := by
  induction s with
  | nil =>
    simp only [pyContains, List.isEmpty_iff]
    constructor
    · rintro rfl; exact ⟨[], [], rfl⟩
    · rintro ⟨u, v, h⟩
      rcases List.append_eq_nil.mp ((List.append_eq_nil).mp h.symm).1 with ⟨hu, hsub⟩
      exact hsub
  | cons c rest ih =>
    simp only [pyContains, Bool.or_eq_true, ih, isPrefixOf_eq_true_iff]
    constructor
    · rintro (⟨r, hr⟩ | ⟨u, v, rfl⟩)
      · exact ⟨[], r, by simpa using hr⟩
      · exact ⟨c :: u, v, rfl⟩
    · rintro ⟨u, v, huv⟩
      cases u with
      | nil => exact Or.inl ⟨v, by simpa using huv⟩
      | cons x xs =>
        simp only [List.cons_append, List.cons.injEq] at huv
        exact Or.inr ⟨xs, v, huv.2⟩

theorem pyContains_of_append_right {sub r : Str} (h : pyContains sub r = true) (l : Str) :
    pyContains sub (l ++ r) = true := by
  obtain ⟨u, v, rfl⟩ := pyContains_iff.mp h
  exact pyContains_iff.mpr ⟨l ++ u, v, by simp⟩

theorem pyContains_of_append_left {sub l : Str} (h : pyContains sub l = true) (r : Str) :
    pyContains sub (l ++ r) = true := by
  obtain ⟨u, v, rfl⟩ := pyContains_iff.mp h
  exact pyContains_iff.mpr ⟨u, v ++ r, by simp⟩

theorem pyContains_sandwich (sub l r : Str) : pyContains sub (l ++ sub ++ r) = true :=
  pyContains_iff.mpr ⟨l, r, rfl⟩

theorem pyContains_self (sub : Str) : pyContains sub sub = true := by
  simpa using pyContains_sandwich sub [] []

theorem mem_of_pyContains {sub s : Str} (h : pyContains sub s = true) {c : Char}
    (hc : c ∈ sub) : c ∈ s := by
  obtain ⟨u, v, rfl⟩ := pyContains_iff.mp h
  simp [hc]

/-- Single-character containment is list membership. -/
theorem pyContains_single_iff {a : Char} {s : Str} :
    pyContains [a] s = true ↔ a ∈ s := by
  constructor
  · intro h; exact mem_of_pyContains h (by simp)
  · intro h
    obtain ⟨u, v, rfl⟩ := List.append_of_mem h
    exact pyContains_iff.mpr ⟨u, v, by simp⟩

/-- The text before the first occurrence is an initial segment. -/
theorem beforeFirstSub_append_ex (sep s : Str) :
    ∃ t, s = beforeFirstSub sep s ++ t := by
  induction s with
  | nil => exact ⟨[], rfl⟩
  | cons c rest ih =>
    by_cases h : List.isPrefixOf sep (c :: rest) = true
    · exact ⟨c :: rest, by simp [beforeFirstSub, h]⟩
    · obtain ⟨t, ht⟩ := ih
      exact ⟨t, by simp only [beforeFirstSub, h, if_false, Bool.false_eq_true]; exact congrArg (c :: ·) ht⟩

/-- The separator does not occur in the text before its first occurrence. -/
theorem pyContains_beforeFirstSub (sep : Str) (hsep : sep ≠ []) (s : Str) :
    pyContains sep (beforeFirstSub sep s) = false := by
  induction s with
  | nil =>
    cases sep with
    | nil => exact absurd rfl hsep
    | cons a as => simp [beforeFirstSub, pyContains]
  | cons c rest ih =>
    by_cases h : List.isPrefixOf sep (c :: rest) = true
    · cases sep with
      | nil => exact absurd rfl hsep
      | cons a as => simp [beforeFirstSub, h, pyContains]
    · simp only [beforeFirstSub, h, if_false, Bool.false_eq_true]
      simp only [pyContains, Bool.or_eq_false_iff]
      refine ⟨?_, ih⟩
      by_contra hp
      rw [Bool.not_eq_false] at hp
      obtain ⟨t, ht⟩ := beforeFirstSub_append_ex sep rest
      have : List.isPrefixOf sep (c :: rest) = true := by
        obtain ⟨r, hr⟩ := isPrefixOf_eq_true_iff.mp hp
        refine isPrefixOf_eq_true_iff.mpr ⟨r ++ t, ?_⟩
        have : (c :: beforeFirstSub sep rest) ++ t = c :: rest := by
          simpa using congrArg (c :: ·) ht.symm
        rw [← this, hr]
        simp
      exact h this

/-- For a single-character separator, `isPrefixOf [a]` is a head test. -/
theorem isPrefixOf_single {a c : Char} {rest : Str} :
    List.isPrefixOf [a] (c :: rest) = (a == c) := by
  simp [List.isPrefixOf]

theorem not_mem_beforeFirstSub_single (a : Char) (s : Str) :
    a ∉ beforeFirstSub [a] s := by
  induction s with
  | nil => simp [beforeFirstSub]
  | cons c rest ih =>
    by_cases h : a = c
    · simp [beforeFirstSub, isPrefixOf_single, h]
    · simp only [beforeFirstSub, isPrefixOf_single, beq_iff_eq, h, if_false]
      intro hmem
      rcases List.mem_cons.mp hmem with h1 | h1
      · exact h h1
      · exact ih h1

theorem beforeFirstSub_single_eq_self {a : Char} {s : Str} (h : a ∉ s) :
    beforeFirstSub [a] s = s := by
  induction s with
  | nil => rfl
  | cons c rest ih =>
    have hac : ¬ a = c := fun he => h (he ▸ List.mem_cons_self c rest)
    simp only [beforeFirstSub, isPrefixOf_single, beq_iff_eq, hac, if_false]
    exact congrArg (c :: ·) (ih (fun hm => h (List.mem_cons_of_mem c hm)))

theorem beforeFirst_afterFirst_single {a : Char} {s : Str} (h : a ∈ s) :
    s = beforeFirstSub [a] s ++ a :: afterFirstSub [a] s := by
  induction s with
  | nil => cases h
  | cons c rest ih =>
    by_cases hac : a = c
    · subst hac
      simp [beforeFirstSub, afterFirstSub, isPrefixOf_single]
    · have hr : a ∈ rest := by
        rcases List.mem_cons.mp h with h1 | h1
        · exact absurd h1 hac
        · exact h1
      simp only [beforeFirstSub, afterFirstSub, isPrefixOf_single, beq_iff_eq, hac, if_false]
      exact congrArg (c :: ·) (ih hr)

theorem beforeFirstSub_single_append {a : Char} {base t : Str} (h : a ∉ base) :
    beforeFirstSub [a] (base ++ a :: t) = base := by
  induction base with
  | nil => simp [beforeFirstSub, isPrefixOf_single]
  | cons c rest ih =>
    have hac : ¬ a = c := fun he => h (he ▸ List.mem_cons_self c rest)
    simp only [List.cons_append, beforeFirstSub, isPrefixOf_single, beq_iff_eq, hac, if_false]
    exact congrArg (c :: ·) (ih (fun hm => h (List.mem_cons_of_mem c hm)))

theorem afterFirstSub_single_append {a : Char} {base t : Str} (h : a ∉ base) :
    afterFirstSub [a] (base ++ a :: t) = t := by
  induction base with
  | nil => simp [afterFirstSub, isPrefixOf_single]
  | cons c rest ih =>
    have hac : ¬ a = c := fun he => h (he ▸ List.mem_cons_self c rest)
    simp only [List.cons_append, afterFirstSub, isPrefixOf_single, beq_iff_eq, hac, if_false]
    exact ih (fun hm => h (List.mem_cons_of_mem c hm))

/-- Unique decomposition at an element that occurs exactly once. -/
theorem append_cons_inj {a : Char} {l₁ r₁ l₂ r₂ : Str}
    (h : l₁ ++ a :: r₁ = l₂ ++ a :: r₂) (h₁ : a ∉ l₁) (hr : a ∉ r₁) :
    l₁ = l₂ ∧ r₁ = r₂ := by
  induction l₁ generalizing l₂ with
  | nil =>
    cases l₂ with
    | nil => simpa using h
    | cons b bs =>
      simp only [List.nil_append, List.cons_append, List.cons.injEq] at h
      exfalso
      exact hr (h.2 ▸ List.mem_append_right bs (List.mem_cons_self a r₂))
  | cons c cs ih =>
    cases l₂ with
    | nil =>
      simp only [List.cons_append, List.nil_append, List.cons.injEq] at h
      exact absurd (h.1 ▸ List.mem_cons_self c cs) (h.1 ▸ h₁)
    | cons b bs =>
      simp only [List.cons_append, List.cons.injEq] at h
      obtain ⟨rfl, h2⟩ := h
      have := ih h2 (fun hm => h₁ (List.mem_cons_of_mem c hm))
      exact ⟨by rw [this.1], this.2⟩

/-! splitChar / pyJoin -/

theorem splitChar_ne_nil (a : Char) (s : Str) : splitChar a s ≠ [] := by
  cases s with
  | nil => simp [splitChar]
  | cons c rest =>
    by_cases h : c = a
    · simp [splitChar, h]
    · simp only [splitChar, h, if_false]
      cases hs : splitChar a rest with
      | nil => simp
      | cons p ps => simp

theorem mem_splitChar_not_mem {a : Char} {s : Str} {p : Str}
    (hp : p ∈ splitChar a s) : a ∉ p := by
  induction s generalizing p with
  | nil =>
    simp only [splitChar, List.mem_singleton] at hp
    subst hp; simp
  | cons c rest ih =>
    by_cases h : c = a
    · simp only [splitChar, h, if_true, List.mem_cons] at hp
      rcases hp with rfl | hp
      · simp
      · exact ih hp
    · simp only [splitChar, h, if_false] at hp
      cases hs : splitChar a rest with
      | nil => exact absurd hs (splitChar_ne_nil a rest)
      | cons q qs =>
        rw [hs] at hp
        simp only [List.mem_cons] at hp
        rcases hp with rfl | hp
        · intro hm
          rcases List.mem_cons.mp hm with h1 | h1
          · exact h h1.symm
          · exact ih (hs ▸ List.mem_cons_self q qs) h1
        · exact ih (hs ▸ List.mem_cons_of_mem q hp)

theorem mem_of_mem_splitChar {a : Char} {s p : Str} {c : Char}
    (hp : p ∈ splitChar a s) (hc : c ∈ p) : c ∈ s := by
  induction s generalizing p with
  | nil =>
    simp only [splitChar, List.mem_singleton] at hp
    subst hp; cases hc
  | cons x rest ih =>
    by_cases h : x = a
    · simp only [splitChar, h, if_true, List.mem_cons] at hp
      rcases hp with rfl | hp
      · cases hc
      · exact List.mem_cons_of_mem x (ih hp hc)
    · simp only [splitChar, h, if_false] at hp
      cases hs : splitChar a rest with
      | nil => exact absurd hs (splitChar_ne_nil a rest)
      | cons q qs =>
        rw [hs] at hp
        simp only [List.mem_cons] at hp
        rcases hp with rfl | hp
        · rcases List.mem_cons.mp hc with h1 | h1
          · exact h1 ▸ List.mem_cons_self x rest
          · exact List.mem_cons_of_mem x (ih (hs ▸ List.mem_cons_self q qs) h1)
        · exact List.mem_cons_of_mem x (ih (hs ▸ List.mem_cons_of_mem q hp) hc)

theorem splitChar_of_not_mem {a : Char} {s : Str} (h : a ∉ s) :
    splitChar a s = [s] := by
  induction s with
  | nil => rfl
  | cons c rest ih =>
    have hca : ¬ c = a := fun he => h (he ▸ List.mem_cons_self c rest)
    simp only [splitChar, hca, if_false]
    rw [ih (fun hm => h (List.mem_cons_of_mem c hm))]

theorem splitChar_append_cons {a : Char} {p t : Str} (h : a ∉ p) :
    splitChar a (p ++ a :: t) = p :: splitChar a t := by
  induction p with
  | nil => simp [splitChar]
  | cons c rest ih =>
    have hca : ¬ c = a := fun he => h (he ▸ List.mem_cons_self c rest)
    have hrec := ih (fun hm => h (List.mem_cons_of_mem c hm))
    simp only [List.cons_append, splitChar, hca, if_false, List.append_eq, hrec]

theorem splitChar_pyJoin {a : Char} {parts : List Str} (hne : parts ≠ [])
    (h : ∀ p ∈ parts, a ∉ p) : splitChar a (pyJoin [a] parts) = parts := by
  induction parts with
  | nil => exact absurd rfl hne
  | cons p ps ih =>
    cases ps with
    | nil =>
      simp only [pyJoin]
      exact splitChar_of_not_mem (h p (List.mem_cons_self p []))
    | cons q qs =>
      have : pyJoin [a] (p :: q :: qs) = p ++ a :: pyJoin [a] (q :: qs) := by
        simp [pyJoin]
      rw [this, splitChar_append_cons (h p (List.mem_cons_self p (q :: qs)))]
      rw [ih (by simp) (fun r hr => h r (List.mem_cons_of_mem p hr))]

theorem mem_pyJoin_single {a : Char} {parts : List Str} {c : Char}
    (hc : c ∈ pyJoin [a] parts) : c = a ∨ ∃ p ∈ parts, c ∈ p := by
  induction parts with
  | nil => cases hc
  | cons p ps ih =>
    cases ps with
    | nil =>
      simp only [pyJoin] at hc
      exact Or.inr ⟨p, List.mem_cons_self p [], hc⟩
    | cons q qs =>
      have : pyJoin [a] (p :: q :: qs) = p ++ a :: pyJoin [a] (q :: qs) := by
        simp [pyJoin]
      rw [this] at hc
      rcases List.mem_append.mp hc with h1 | h1
      · exact Or.inr ⟨p, List.mem_cons_self p (q :: qs), h1⟩
      · rcases List.mem_cons.mp h1 with h2 | h2
        · exact Or.inl h2
        · rcases ih h2 with h3 | ⟨r, hr, hcr⟩
          · exact Or.inl h3
          · exact Or.inr ⟨r, List.mem_cons_of_mem p hr, hcr⟩

/-- A would-be initial segment that crosses a separator either fits in the
first part or contains the separator. -/
theorem isPrefixOf_append_cons {s p : Str} {a : Char} {r : Str}
    (h : List.isPrefixOf s (p ++ a :: r) = true) :
    List.isPrefixOf s p = true ∨ a ∈ s := by
  induction p generalizing s with
  | nil =>
    cases s with
    | nil => exact Or.inl rfl
    | cons b bs =>
      simp only [List.nil_append, List.isPrefixOf, Bool.and_eq_true, beq_iff_eq] at h
      exact Or.inr (h.1 ▸ List.mem_cons_self b bs)
  | cons c cs ih =>
    cases s with
    | nil => exact Or.inl rfl
    | cons b bs =>
      simp only [List.cons_append, List.isPrefixOf, Bool.and_eq_true, beq_iff_eq] at h
      rcases ih h.2 with h1 | h1
      · exact Or.inl (by simp [List.isPrefixOf, h.1, h1])
      · exact Or.inr (List.mem_cons_of_mem b h1)

/-- No kept parameter block starts with a forbidden marker once joined. -/
theorem not_isPrefixOf_pyJoin_head {s : Str} {a : Char} {p : Str} {ps : List Str}
    (hs : a ∉ s) (hp : List.isPrefixOf s p = false) :
    List.isPrefixOf s (pyJoin [a] (p :: ps)) = false := by
  cases ps with
  | nil => simpa [pyJoin] using hp
  | cons q qs =>
    have hj : pyJoin [a] (p :: q :: qs) = p ++ a :: pyJoin [a] (q :: qs) := by
      simp [pyJoin]
    rw [hj]
    by_contra hcon
    rw [Bool.not_eq_false] at hcon
    rcases isPrefixOf_append_cons hcon with h1 | h1
    · rw [hp] at h1; cases h1
    · exact hs h1

/-! pySplit -/

theorem isPrefixOf_drop_decomp {s t : Str} (h : List.isPrefixOf s t = true) :
    t = s ++ t.drop s.length := by
  obtain ⟨r, rfl⟩ := isPrefixOf_eq_true_iff.mp h
  rw [List.drop_left]

theorem pySplitGo_ne_nil (c0 : Char) (cs : Str) (fuel : Nat) (xs : Str) :
    pySplitGo c0 cs fuel xs ≠ [] := by
  match fuel, xs with
  | _, [] => simp [pySplitGo]
  | 0, x :: rest => simp [pySplitGo]
  | fuel + 1, x :: rest =>
    by_cases h : List.isPrefixOf (c0 :: cs) (x :: rest) = true
    · simp [pySplitGo, h]
    · simp only [pySplitGo, h, if_false]
      cases hr : pySplitGo c0 cs fuel rest with
      | nil => simp
      | cons p ps => simp

theorem pySplitGo_join (c0 : Char) (cs : Str) :
    ∀ (fuel : Nat) (xs : Str), xs.length ≤ fuel →
      pyJoin (c0 :: cs) (pySplitGo c0 cs fuel xs) = xs := by
  intro fuel
  induction fuel with
  | zero =>
    intro xs hlen
    have : xs = [] := List.length_eq_zero.mp (Nat.le_zero.mp hlen)
    subst this
    simp [pySplitGo, pyJoin]
  | succ fuel ih =>
    intro xs hlen
    cases xs with
    | nil => simp [pySplitGo, pyJoin]
    | cons x rest =>
      by_cases h : List.isPrefixOf (c0 :: cs) (x :: rest) = true
      · have hlen' : (List.drop cs.length rest).length ≤ fuel :=
          calc (List.drop cs.length rest).length ≤ rest.length := by
                simp [List.length_drop]
            _ ≤ fuel := Nat.le_of_succ_le_succ (by simpa using hlen)
        simp only [pySplitGo, h, if_true]
        cases hps : pySplitGo c0 cs fuel (List.drop cs.length rest) with
        | nil => exact absurd hps (pySplitGo_ne_nil c0 cs fuel _)
        | cons p ps =>
          have hrec : pyJoin (c0 :: cs) (p :: ps) = List.drop cs.length rest := by
            rw [← hps]; exact ih _ hlen'
          have hj : pyJoin (c0 :: cs) ([] :: p :: ps) =
              (c0 :: cs) ++ pyJoin (c0 :: cs) (p :: ps) := by simp [pyJoin]
          rw [hj, hrec]
          simpa using (isPrefixOf_drop_decomp h).symm
      · simp only [pySplitGo, h, if_false, Bool.false_eq_true]
        cases hps : pySplitGo c0 cs fuel rest with
        | nil => exact absurd hps (pySplitGo_ne_nil c0 cs fuel rest)
        | cons p ps =>
          have hrec : pyJoin (c0 :: cs) (p :: ps) = rest := by
            rw [← hps]; exact ih rest (Nat.le_of_succ_le_succ (by simpa using hlen))
          show pyJoin (c0 :: cs) ((x :: p) :: ps) = x :: rest
          cases ps with
          | nil => simpa [pyJoin] using congrArg (x :: ·) hrec
          | cons q qs =>
            have h1 : pyJoin (c0 :: cs) ((x :: p) :: q :: qs) =
                (x :: p) ++ (c0 :: cs) ++ pyJoin (c0 :: cs) (q :: qs) := by simp [pyJoin]
            have h2 : pyJoin (c0 :: cs) (p :: q :: qs) =
                p ++ (c0 :: cs) ++ pyJoin (c0 :: cs) (q :: qs) := by simp [pyJoin]
            rw [h2] at hrec
            rw [h1, ← hrec]
            simp

theorem pySplitS_join {sep : Str} (hsep : sep ≠ []) (xs : Str) :
    pyJoin sep (pySplitS sep xs) = xs := by
  cases sep with
  | nil => exact absurd rfl hsep
  | cons c0 cs => exact pySplitGo_join c0 cs xs.length xs (Nat.le_refl _)

theorem pySplitS_pair {sep a b xs : Str} (hsep : sep ≠ [])
    (h : pySplitS sep xs = [a, b]) : xs = a ++ sep ++ b := by
  have := pySplitS_join hsep xs
  rw [h] at this
  rw [← this]
  simp [pyJoin]

theorem pySplitGo_headD (c0 : Char) (cs : Str) :
    ∀ (fuel : Nat) (xs : Str), xs.length ≤ fuel →
      (pySplitGo c0 cs fuel xs).headD [] = beforeFirstSub (c0 :: cs) xs := by
  intro fuel
  induction fuel with
  | zero =>
    intro xs hlen
    have : xs = [] := List.length_eq_zero.mp (Nat.le_zero.mp hlen)
    subst this
    simp [pySplitGo, beforeFirstSub]
  | succ fuel ih =>
    intro xs hlen
    cases xs with
    | nil => simp [pySplitGo, beforeFirstSub]
    | cons x rest =>
      by_cases h : List.isPrefixOf (c0 :: cs) (x :: rest) = true
      · simp [pySplitGo, beforeFirstSub, h]
      · simp only [pySplitGo, beforeFirstSub, h, if_false, Bool.false_eq_true]
        have hrec := ih rest (Nat.le_of_succ_le_succ (by simpa using hlen))
        cases hps : pySplitGo c0 cs fuel rest with
        | nil => exact absurd hps (pySplitGo_ne_nil c0 cs fuel rest)
        | cons p ps =>
          rw [hps] at hrec
          simpa using congrArg (x :: ·) hrec

theorem pySplitS_headD {sep : Str} (hsep : sep ≠ []) (xs : Str) :
    (pySplitS sep xs).headD [] = beforeFirstSub sep xs := by
  cases sep with
  | nil => exact absurd rfl hsep
  | cons c0 cs => exact pySplitGo_headD c0 cs xs.length xs (Nat.le_refl _)

/-! pyStrip -/

theorem pyStrip_decomp (s : Str) : ∃ t w, s = t ++ pyStrip s ++ w := by
  have h1 : s.takeWhile isWs ++ s.dropWhile isWs = s :=
    List.takeWhile_append_dropWhile isWs s
  have h2 : (s.dropWhile isWs).reverse.takeWhile isWs
      ++ (s.dropWhile isWs).reverse.dropWhile isWs = (s.dropWhile isWs).reverse :=
    List.takeWhile_append_dropWhile isWs (s.dropWhile isWs).reverse
  have h3 : s.dropWhile isWs
      = pyStrip s ++ ((s.dropWhile isWs).reverse.takeWhile isWs).reverse := by
    have h2' := congrArg List.reverse h2
    rw [List.reverse_append, List.reverse_reverse] at h2'
    exact h2'.symm
  exact ⟨s.takeWhile isWs, ((s.dropWhile isWs).reverse.takeWhile isWs).reverse, by
    rw [List.append_assoc, ← h3, h1]⟩

theorem pyContains_pyStrip_mono {sub s : Str}
    (h : pyContains sub (pyStrip s) = true) : pyContains sub s = true := by
  obtain ⟨t, w, hs⟩ := pyStrip_decomp s
  rw [hs, List.append_assoc]
  exact pyContains_of_append_right (pyContains_of_append_left h w) t

theorem pyContains_pyStrip_of_not {sub s : Str}
    (h : pyContains sub s = false) : pyContains sub (pyStrip s) = false := by
  by_contra hc
  rw [Bool.not_eq_false] at hc
  rw [pyContains_pyStrip_mono hc] at h
  cases h

/-! ## URL-cleaning analysis (towards C6) -/

/-- A URL without `?` is left unchanged by the cleaning step. -/
theorem clean_url_of_no_qmark {u : Str} (h : '?' ∉ u) :
    clean_citation_url u = u := by
  have h1 : pyContains "?utm_source=".data u = false := by
    by_contra hc
    rw [Bool.not_eq_false] at hc
    exact h (mem_of_pyContains hc (by decide))
  have h2 : pyContains ['?'] u = false := by
    by_contra hc
    rw [Bool.not_eq_false] at hc
    exact h (pyContains_single_iff.mp hc)
  simp [clean_citation_url, h1, h2]


theorem clean_url_branch2_eq {u : Str}
    (h1 : pyContains "?utm_source=".data u = false)
    (hg : (pyContains ['?'] u &&
      (pyContains "&utm_".data u || pyContains "&amp;utm_".data u)) = true) :
    clean_citation_url u =
      (if !((splitChar '&' (beforeFirstSub ['?'] (afterFirstSub ['?'] u))).filter
            nonTrackingPred).isEmpty then
        beforeFirstSub ['?'] u ++ ['?'] ++
          pyJoin ['&'] ((splitChar '&' (beforeFirstSub ['?'] (afterFirstSub ['?'] u))).filter
            nonTrackingPred)
      else beforeFirstSub ['?'] u) := by
  simp only [clean_citation_url, h1, Bool.false_eq_true, if_false, hg, if_true, nonTrackingPred]
  rfl

/-- Core stability fact: on inputs free of `"?utm_source="`, one cleaning
pass reaches a fixed point. -/
theorem clean_url_stable_of_no_qutm {u : Str}
    (h1 : pyContains "?utm_source=".data u = false) :
    clean_citation_url (clean_citation_url u) = clean_citation_url u := by
  by_cases hg : (pyContains ['?'] u &&
      (pyContains "&utm_".data u || pyContains "&amp;utm_".data u)) = true
  case neg =>
    have he : clean_citation_url u = u := by
      simp only [clean_citation_url, h1, Bool.false_eq_true, if_false]
      rw [if_neg]
      intro hc
      exact hg hc
    rw [he, he]
  case pos =>
    have hq : '?' ∈ u := by
      have := (Bool.and_eq_true _ _).mp hg
      exact pyContains_single_iff.mp this.1
    set base := beforeFirstSub ['?'] u with hbase
    set seg := beforeFirstSub ['?'] (afterFirstSub ['?'] u) with hseg
    set params := splitChar '&' seg with hparams
    set keep := params.filter nonTrackingPred with hkeep
    have hbase_q : '?' ∉ base := not_mem_beforeFirstSub_single '?' u
    have hseg_q : '?' ∉ seg := not_mem_beforeFirstSub_single '?' _
    have hkeep_sub : ∀ p ∈ keep, p ∈ params := fun p hp => List.mem_of_mem_filter hp
    have hkeep_pred : ∀ p ∈ keep, nonTrackingPred p = true :=
      fun p hp => List.of_mem_filter hp
    have hkeep_amp : ∀ p ∈ keep, '&' ∉ p :=
      fun p hp => mem_splitChar_not_mem (hkeep_sub p hp)
    have hkeep_seg : ∀ p ∈ keep, ∀ c ∈ p, c ∈ seg :=
      fun p hp c hc => mem_of_mem_splitChar (hkeep_sub p hp) hc
    rw [clean_url_branch2_eq h1 hg]
    by_cases hk : keep.isEmpty = true
    case pos =>
      rw [← hkeep, hk]
      simp only [Bool.not_true, Bool.false_eq_true, if_false]
      exact clean_url_of_no_qmark hbase_q
    case neg =>
      rw [← hkeep]
      rw [Bool.not_eq_true] at hk
      simp only [hk, Bool.not_false, if_true]
      set J := pyJoin ['&'] keep with hJ
      have hJ_q : '?' ∉ J := by
        intro hc
        rcases mem_pyJoin_single hc with h | ⟨p, hp, hcp⟩
        · cases h
        · exact hseg_q (hkeep_seg p hp '?' hcp)
      have hv : base ++ ['?'] ++ J = base ++ '?' :: J := by simp
      rw [hv]
      -- the first branch guard fails on the rebuilt URL
      have hA : pyContains "?utm_source=".data (base ++ '?' :: J) = false := by
        by_contra hc
        rw [Bool.not_eq_false] at hc
        obtain ⟨x, y, hxy⟩ := pyContains_iff.mp hc
        have hxy' : base ++ '?' :: J = x ++ '?' :: ("utm_source=".data ++ y) := by
          rw [hxy]; simp
        obtain ⟨-, hJeq⟩ := append_cons_inj hxy' hbase_q hJ_q
        have hpre : List.isPrefixOf "utm_".data J = true := by
          refine isPrefixOf_eq_true_iff.mpr ⟨"source=".data ++ y, ?_⟩
          rw [hJeq]; rfl
        cases hkc : keep with
        | nil => rw [hkc] at hk; cases hk
        | cons k ks =>
          have hknt : nonTrackingPred k = true :=
            hkeep_pred k (hkc ▸ List.mem_cons_self k ks)
          have hknp : List.isPrefixOf "utm_".data k = false := by
            have := (Bool.and_eq_true _ _).mp hknt
            simpa [pyStartsWith] using this.1
          have hnot := @not_isPrefixOf_pyJoin_head "utm_".data '&' k ks (by decide) hknp
          rw [hJ, hkc] at hpre
          rw [hnot] at hpre
          cases hpre
      by_cases hg2 : (pyContains ['?'] (base ++ '?' :: J) &&
          (pyContains "&utm_".data (base ++ '?' :: J) ||
           pyContains "&amp;utm_".data (base ++ '?' :: J))) = true
      case neg =>
        simp only [clean_citation_url, hA, Bool.false_eq_true, if_false]
        rw [if_neg (fun hc => hg2 hc)]
      case pos =>
        rw [clean_url_branch2_eq hA hg2]
        have hb1 : beforeFirstSub ['?'] (base ++ '?' :: J) = base :=
          beforeFirstSub_single_append hbase_q
        have hb2 : afterFirstSub ['?'] (base ++ '?' :: J) = J :=
          afterFirstSub_single_append hbase_q
        have hb3 : beforeFirstSub ['?'] J = J :=
          beforeFirstSub_single_eq_self hJ_q
        have hb4 : splitChar '&' J = keep := by
          rw [hJ]
          refine splitChar_pyJoin ?_ hkeep_amp
          intro hc; rw [hc] at hk; cases hk
        have hb5 : keep.filter nonTrackingPred = keep :=
          List.filter_eq_self.mpr hkeep_pred
        rw [hb2, hb3, hb4, hb5, hb1]
        simp only [hk, Bool.not_false, if_true]
        simp

/-- On any input, the second cleaning pass reaches a fixed point. -/
theorem clean_url_double_stable (u : Str) :
    clean_citation_url (clean_citation_url (clean_citation_url u)) =
      clean_citation_url (clean_citation_url u) := by
  by_cases h1 : pyContains "?utm_source=".data u = true
  case pos =>
    have he : clean_citation_url u = beforeFirstSub "?utm_source=".data u := by
      simp [clean_citation_url, h1]
    have hv : pyContains "?utm_source=".data (clean_citation_url u) = false := by
      rw [he]
      exact pyContains_beforeFirstSub _ (by decide) u
    exact clean_url_stable_of_no_qutm hv
  case neg =>
    have := clean_url_stable_of_no_qutm (Bool.not_eq_true _ ▸ h1 : pyContains "?utm_source=".data u = false)
    rw [this]
    exact this

/-! ## Citation-merge analysis (towards C3 and C7) -/

theorem merge_loop_acc_sub (cs : List Citation) :
    ∀ (acc : List (Str × Citation)), ∀ kv ∈ acc, kv ∈ merge_citations_loop cs acc := by
  induction cs with
  | nil => intro acc kv hkv; simpa [merge_citations_loop] using hkv
  | cons c rest ih =>
    intro acc kv hkv
    simp only [merge_citations_loop]
    by_cases hc : (!(clean_citation_url c.url).isEmpty &&
        (acc.find? (fun kv => kv.1 == clean_citation_url c.url)).isNone) = true
    · rw [if_pos hc]
      exact ih _ kv (List.mem_append_left _ hkv)
    · rw [if_neg hc]
      exact ih _ kv hkv

theorem merge_loop_url_inv (cs : List Citation) :
    ∀ (acc : List (Str × Citation)), (∀ kv ∈ acc, kv.2.url = kv.1) →
      ∀ kv ∈ merge_citations_loop cs acc, kv.2.url = kv.1 := by
  induction cs with
  | nil => intro acc hacc kv hkv; exact hacc kv (by simpa [merge_citations_loop] using hkv)
  | cons c rest ih =>
    intro acc hacc kv hkv
    simp only [merge_citations_loop] at hkv
    by_cases hc : (!(clean_citation_url c.url).isEmpty &&
        (acc.find? (fun kv => kv.1 == clean_citation_url c.url)).isNone) = true
    · rw [if_pos hc] at hkv
      refine ih _ ?_ kv hkv
      intro kv' hkv'
      rcases List.mem_append.mp hkv' with h | h
      · exact hacc kv' h
      · simp only [List.mem_singleton] at h
        subst h; rfl
    · rw [if_neg hc] at hkv
      exact ih _ hacc kv hkv

theorem merge_loop_mem {c : Citation} (hne : clean_citation_url c.url ≠ []) :
    ∀ (cs : List Citation) (acc : List (Str × Citation)), c ∈ cs →
      ∃ kv ∈ merge_citations_loop cs acc, kv.1 = clean_citation_url c.url := by
  intro cs
  induction cs with
  | nil => intro acc hc; cases hc
  | cons d rest ih =>
    intro acc hc
    simp only [merge_citations_loop]
    rcases List.mem_cons.mp hc with rfl | hmem
    · by_cases hg : (!(clean_citation_url c.url).isEmpty &&
          (acc.find? (fun kv => kv.1 == clean_citation_url c.url)).isNone) = true
      · rw [if_pos hg]
        refine ⟨(clean_citation_url c.url,
          { title := synthesize_citation_title c.title (clean_citation_url c.url),
            url := clean_citation_url c.url }), ?_, rfl⟩
        exact merge_loop_acc_sub rest _ _ (List.mem_append_right acc (List.mem_singleton.mpr rfl))
      · rw [if_neg hg]
        have hgf : (!(clean_citation_url c.url).isEmpty &&
            (acc.find? (fun kv => kv.1 == clean_citation_url c.url)).isNone) = false :=
          Bool.eq_false_iff.mpr hg
        rcases Bool.and_eq_false_iff.mp hgf with h | h
        · exfalso
          rw [Bool.not_eq_false'] at h
          exact hne (List.isEmpty_iff.mp h)
        ·
          have hsome : ∃ kv, acc.find? (fun kv => kv.1 == clean_citation_url c.url) = some kv := by
            cases hf : acc.find? (fun kv => kv.1 == clean_citation_url c.url) with
            | none => rw [hf] at h; cases h
            | some kv => exact ⟨kv, rfl⟩
          obtain ⟨kv, hkv⟩ := hsome
          have hkv_mem : kv ∈ acc := List.mem_of_find?_eq_some hkv
          have hkv_eq : kv.1 = clean_citation_url c.url := by
            have := List.find?_some hkv
            simpa using this
          exact ⟨kv, merge_loop_acc_sub rest acc kv hkv_mem, hkv_eq⟩
    · by_cases hg : (!(clean_citation_url d.url).isEmpty &&
          (acc.find? (fun kv => kv.1 == clean_citation_url d.url)).isNone) = true
      · rw [if_pos hg]; exact ih _ hmem
      · rw [if_neg hg]; exact ih _ hmem

/-- Sorting an empty merged list gives the empty list. -/
theorem sorted_citations_eq_nil {cs : List Citation}
    (h : merge_citations_loop cs [] = []) : sorted_citations cs = [] := by
  simp [sorted_citations, h]

theorem mem_sorted_citations {cs : List Citation} {e : Citation} :
    e ∈ sorted_citations cs ↔ e ∈ (merge_citations_loop cs []).map Prod.snd := by
  unfold sorted_citations
  exact (List.mergeSort_perm _ _).mem_iff

/-! ## Claim theorems -/

/-- C1: the per-document block handed to the synthesis capability is claimed
to contain each document's task description together with the skip-notice or
the actual critique text.  In fact the orchestrator stores the critique
under the key `"content"` (line 300 of the orchestrator) while
`_format_critiques_for_prompt` reads `item.get('critique_text', 'N/A')`
(line 49 of the synthesiser), so the block carries the task description but
the literal `N/A` in place of the critique: for a critiqued document whose
critique text is `RealCritiqueX`, the block contains `Original Task: TaskX`
and `Critique:\nN/A\n` and does not contain `RealCritiqueX` at all. -/
theorem c1_critique_block_drops_critique_text :
    (pyContains "Original Task: TaskX".data
      (format_critiques_for_prompt (docs_for_synthesis
        [{ task := "TaskX".data, original := "OrigX".data,
           critique := "RealCritiqueX".data, citations := [] }])) = true) ∧
    (pyContains "Critique:\nN/A\n".data
      (format_critiques_for_prompt (docs_for_synthesis
        [{ task := "TaskX".data, original := "OrigX".data,
           critique := "RealCritiqueX".data, citations := [] }])) = true) ∧
    (pyContains "RealCritiqueX".data
      (format_critiques_for_prompt (docs_for_synthesis
        [{ task := "TaskX".data, original := "OrigX".data,
           critique := "RealCritiqueX".data, citations := [] }])) = false) := by
  decide

/-- C2: with every critique a skip placeholder, `synthesise_research` is
claimed to return the "all critiques skipped" error without invoking the
synthesis capability.  In fact the guard on line 67 of the synthesiser
splits the formatted block on `"---"` and requires *every* chunk to contain
the skip marker, but the block always ends in `"---\n"`, so the final chunk
is `"\n"` and the `all(...)` is false; the capability is invoked and its
output returned.  (Through the orchestrator the guard is doubly dead, since
the key mismatch of C1 makes every critique read as `N/A`.)  Here both
documents carry genuine skip placeholders under the `critique_text` key the
synthesiser reads. -/
theorem c2_all_skipped_guard_never_fires :
    ((pySplitS "---".data (format_critiques_for_prompt
        [[("original_task".data, "Task A".data),
          ("critique_text".data, "Critique Skipped for Task: Task A\nReason: Document content is empty or an error message from a previous step.\nDocument Content Provided: Error: research failed...".data)],
         [("original_task".data, "Task B".data),
          ("critique_text".data, "Critique Skipped for Task: Task B\nReason: Document content is empty or an error message from a previous step.\nDocument Content Provided: ...".data)]])).all
      (fun f_item => pyContains "Critique Status: Skipped or Errored".data f_item) = false) ∧
    (synthesise_research (fun _ _ => "SYNTH CAPABILITY OUTPUT".data) "query".data
        [[("original_task".data, "Task A".data),
          ("critique_text".data, "Critique Skipped for Task: Task A\nReason: Document content is empty or an error message from a previous step.\nDocument Content Provided: Error: research failed...".data)],
         [("original_task".data, "Task B".data),
          ("critique_text".data, "Critique Skipped for Task: Task B\nReason: Document content is empty or an error message from a previous step.\nDocument Content Provided: ...".data)]]
      = "SYNTH CAPABILITY OUTPUT".data) := by
  constructor
  · decide
  · decide

/-- C3 (counterexample): the claim says a non-error synthesis result with an
empty merged citation set ends with the `## Sources and Citations` section
containing the "no citations" notice.  But when the collected citation list
is empty the guard `if not synthesized_report.startswith("Error:") and
all_citations:` (line 315) skips the whole citations section: with one
critiqued document carrying no citations, the phase returns the capability
output unchanged, with no heading and no notice. -/
theorem c3_counterexample :
    (handle_synthesis_phase (fun _ _ => "SYNTH BODY".data) "q".data
      [{ task := "t".data, original := "orig".data, critique := "crit".data,
         citations := [] }] = "SYNTH BODY".data) ∧
    (pyContains "## Sources and Citations".data
      (handle_synthesis_phase (fun _ _ => "SYNTH BODY".data) "q".data
        [{ task := "t".data, original := "orig".data, critique := "crit".data,
           citations := [] }]) = false) := by
  constructor
  · decide
  · decide

/-- C3 (amended): when the synthesis result is non-error, the citations
section is appended only if the *collected* citation list is non-empty; the
"no citations" notice appears exactly when that list is non-empty but the
deduplication loop keeps nothing (every cleaned URL is empty).  With an
empty collected list the report is returned without any citations
section. -/
theorem c3_amended (invoke : Str → Str → Str) (q : Str) (docs : List CritiquedDoc)
    (hne : docs ≠ [])
    (herr : pyStartsWith "Error:".data
      (synthesise_research invoke q (docs_for_synthesis docs)) = false) :
    (collect_all_citations docs = [] →
      handle_synthesis_phase invoke q docs =
        synthesise_research invoke q (docs_for_synthesis docs)) ∧
    (collect_all_citations docs ≠ [] →
      merge_citations_loop (collect_all_citations docs) [] = [] →
      handle_synthesis_phase invoke q docs =
        synthesise_research invoke q (docs_for_synthesis docs) ++
          "\n\n## Sources and Citations\n\n*No citations were found for this report.*\n".data) := by
  have hdfs : (docs_for_synthesis docs).isEmpty = false := by
    cases docs with
    | nil => exact absurd rfl hne
    | cons d ds => simp [docs_for_synthesis]
  constructor
  · intro hcit
    simp [handle_synthesis_phase, hdfs, hcit]
  · intro hcit hmerge
    have hsorted : sorted_citations (collect_all_citations docs) = [] :=
      sorted_citations_eq_nil hmerge
    have hcit' : (collect_all_citations docs).isEmpty = false := by
      cases h : collect_all_citations docs with
      | nil => exact absurd h hcit
      | cons a b => rfl
    simp only [handle_synthesis_phase, hdfs, Bool.false_eq_true, if_false, herr, hcit',
      Bool.not_false, Bool.and_self, if_true, hsorted, List.isEmpty_nil, Bool.not_true]
    simp

/-- C3 (witness for the amended theorem): a concrete run in each branch;
`docsA` has no citations at all, `docsW` one citation whose URL is empty. -/
theorem c3_witness :
    (handle_synthesis_phase (fun _ _ => "BODY".data) "q".data
      [{ task := "t".data, original := "orig".data, critique := "crit".data,
         citations := [] }] = "BODY".data) ∧
    (handle_synthesis_phase (fun _ _ => "BODY".data) "q".data
      [{ task := "t".data, original := "orig".data, critique := "crit".data,
         citations := [{ title := "T".data, url := [] }] }] =
      "BODY\n\n## Sources and Citations\n\n*No citations were found for this report.*\n".data) := by
  constructor
  · have h := (c3_amended (fun _ _ => "BODY".data) "q".data
      [{ task := "t".data, original := "orig".data, critique := "crit".data,
         citations := [] }] (by decide) (by decide)).1 (by decide)
    rw [h]; decide
  · have h := (c3_amended (fun _ _ => "BODY".data) "q".data
      [{ task := "t".data, original := "orig".data, critique := "crit".data,
         citations := [{ title := "T".data, url := [] }] }] (by decide) (by decide)).2
      (by decide) (by decide)
    rw [h]; decide

/-- C6 (counterexample): URL normalization is not idempotent.  For
`http://a.com/p?x=1&utm_b=2?utm_source=z` the first pass strips the
`?utm_source=`-anchored suffix, leaving `http://a.com/p?x=1&utm_b=2`, and a
second pass then also strips the `utm_b` parameter, so
`normalize(normalize(u)) != normalize(u)`. -/
theorem c6_counterexample :
    clean_citation_url (clean_citation_url "http://a.com/p?x=1&utm_b=2?utm_source=z".data) ≠
      clean_citation_url "http://a.com/p?x=1&utm_b=2?utm_source=z".data := by
  decide

/-- C6 (amended): normalization is idempotent on every URL that does not
contain `"?utm_source="`, and on arbitrary URLs it is idempotent from the
second application onward: `normalize (normalize (normalize u)) =
normalize (normalize u)`. -/
theorem c6_amended (u : Str) :
    (pyContains "?utm_source=".data u = false →
      clean_citation_url (clean_citation_url u) = clean_citation_url u) ∧
    clean_citation_url (clean_citation_url (clean_citation_url u)) =
      clean_citation_url (clean_citation_url u) :=
  ⟨clean_url_stable_of_no_qutm, clean_url_double_stable u⟩

/-- C6 (witness): the amended idempotence at a concrete URL that carries
both a kept parameter and a tracking parameter. -/
theorem c6_witness :
    (pyContains "?utm_source=".data "http://a.com/p?x=1&utm_b=2".data = false) ∧
    clean_citation_url (clean_citation_url "http://a.com/p?x=1&utm_b=2".data) =
      clean_citation_url "http://a.com/p?x=1&utm_b=2".data :=
  ⟨by decide, (c6_amended "http://a.com/p?x=1&utm_b=2".data).1 (by decide)⟩

/-- C7 (counterexample): the claim says a citation is dropped only when an
earlier citation has the same normalized URL, and that unparseable URLs are
kept.  But `if clean_url and ...` (line 338) also drops any citation whose
cleaned URL is *empty*: a single citation with URL `""` (no duplicate
anywhere) produces an empty merged list. -/
theorem c7_counterexample :
    sorted_citations [{ title := "x".data, url := [] }] = [] :=
  sorted_citations_eq_nil (by decide)

/-- C7 (amended): a citation is dropped only when its cleaned URL is empty
or another citation with the same normalized URL occurred earlier (in which
case that earlier citation still represents the URL): every citation whose
cleaned URL is non-empty has a merged entry with exactly that URL.  A
citation whose URL contains no `?` at all (in particular any unparseable
non-empty URL) keeps its original URL string as its own normalized form. -/
theorem c7_amended (cs : List Citation) (c : Citation) (hc : c ∈ cs)
    (hne : clean_citation_url c.url ≠ []) :
    (∃ e ∈ sorted_citations cs, e.url = clean_citation_url c.url) ∧
    ('?' ∉ c.url → clean_citation_url c.url = c.url) := by
  constructor
  · obtain ⟨kv, hkv_mem, hkv_eq⟩ := merge_loop_mem hne cs [] hc
    have hurl : kv.2.url = kv.1 :=
      merge_loop_url_inv cs [] (by intro kv h; cases h) kv hkv_mem
    exact ⟨kv.2, mem_sorted_citations.mpr (List.mem_map_of_mem Prod.snd hkv_mem),
      by rw [hurl, hkv_eq]⟩
  · exact clean_url_of_no_qmark

/-- C7 (witness): a single unparseable URL is kept under its own string. -/
theorem c7_witness :
    (∃ e ∈ sorted_citations [{ title := "t".data, url := "notaurl".data }],
      e.url = clean_citation_url "notaurl".data) ∧
    clean_citation_url "notaurl".data = "notaurl".data := by
  have h := c7_amended [{ title := "t".data, url := "notaurl".data }]
    { title := "t".data, url := "notaurl".data } (by decide) (by decide)
  exact ⟨h.1, h.2 (by decide)⟩

/-- C4: the claim says search-guidance hints extracted from a `QUESTIONS:`
reply are passed as the additional-guidance argument of every subsequent
research call.  In fact `_handle_planning_phase` returns the two-element
tuple `(initial_plan_str, new_insights)` on that branch (line 176) while
its caller assigns the result to `current_plan` and immediately evaluates
`current_plan.startswith("Error:")` (line 77), which raises
`AttributeError` on a tuple: the pipeline crashes before any research call
is made, so the hints are never passed anywhere (and on every non-crashing
path the guidance argument is the `""` returned by the clarification
phase).  Concretely, with the plan-clarity capability answering
`QUESTIONS:\n1. What timeframe matters?` the extracted insights are
non-empty, the planning phase returns the tuple, and the run aborts. -/
theorem c4_questions_branch_raises :
    ((extract_clarification_insights "QUESTIONS:\n1. What timeframe matters?".data).isEmpty
        = false) ∧
    (handle_planning_phase questionsOracles "test query".data =
      .planWithInsights "1. [ResearchAgent] Find key facts".data
        "Additional research guidance based on potential clarifications:\n- Consider exploring: timeframe, matters\n".data) ∧
    execute_research_pipeline questionsOracles "test query".data = .attributeError := by
  refine ⟨by decide, by decide, by decide⟩

/-- Helper: the citation-collecting fold flattens the per-document lists. -/
theorem foldl_append_citations (docs : List CritiquedDoc) :
    ∀ acc : List Citation,
      docs.foldl (fun a d => a ++ d.citations) acc =
        acc ++ (docs.map CritiquedDoc.citations).flatten := by
  induction docs with
  | nil => intro acc; simp
  | cons d ds ih => intro acc; simp [ih]

/-- C9: the critique phase copies each research output's citation list
unchanged into the critiqued document it appends, and the synthesis phase
only reads those lists into a separate aggregate (the concatenation of the
per-document lists, in document order), leaving the documents themselves
untouched. -/
theorem c9_citations_carried_unchanged (invoke : Str → Str → Str)
    (ros : List ResearchOutput) (docs : List CritiquedDoc) :
    ((handle_critique_phase invoke ros).map CritiquedDoc.citations =
      ros.map ResearchOutput.citations) ∧
    collect_all_citations docs = (docs.map CritiquedDoc.citations).flatten := by
  constructor
  · simp [handle_critique_phase]
  · simpa using foldl_append_citations docs []

/-- C10: the critique phase returns exactly one critiqued document per
research output, in order (same length, and the i-th document is built from
the i-th output); consequently the "No documents were successfully
critiqued" halt is unreachable whenever the research phase produced at
least one output. -/
theorem c10_one_critique_per_output (invoke : Str → Str → Str)
    (ros : List ResearchOutput) :
    ((handle_critique_phase invoke ros).length = ros.length) ∧
    (∀ i (h : i < ros.length),
      (handle_critique_phase invoke ros).get
          ⟨i, by simpa [handle_critique_phase] using h⟩ =
        { task := (ros.get ⟨i, h⟩).task,
          original := (ros.get ⟨i, h⟩).content,
          critique := critique_document invoke (ros.get ⟨i, h⟩).task (ros.get ⟨i, h⟩).content,
          citations := (ros.get ⟨i, h⟩).citations }) ∧
    (ros ≠ [] → handle_critique_phase invoke ros ≠ []) := by
  refine ⟨by simp [handle_critique_phase], ?_, ?_⟩
  · intro i h
    simp [handle_critique_phase]
  · intro hne
    simp only [handle_critique_phase]
    intro hmap
    exact hne (List.map_eq_nil_iff.mp hmap)

/-- C10 (witness): one research output yields one critiqued document and a
non-empty critique list. -/
theorem c10_witness :
    ((handle_critique_phase (fun _ _ => "CRIT".data)
      [{ task := "t".data, content := "doc".data, citations := [] }]).length = 1) ∧
    ((handle_critique_phase (fun _ _ => "CRIT".data)
      [{ task := "t".data, content := "doc".data, citations := [] }]).get ⟨0, by decide⟩ =
      { task := "t".data, original := "doc".data,
        critique := critique_document (fun _ _ => "CRIT".data) "t".data "doc".data,
        citations := [] }) ∧
    (handle_critique_phase (fun _ _ => "CRIT".data)
      [{ task := "t".data, content := "doc".data, citations := [] }] ≠ []) := by
  have h := c10_one_critique_per_output (fun _ _ => "CRIT".data)
    [{ task := "t".data, content := "doc".data, citations := [] }]
  exact ⟨by rw [h.1]; rfl, h.2.1 0 (by decide), h.2.2 (by decide)⟩

/-- Helper: after the writer's duplicate-removal step, the heading that was
found (the first matching entry of `reference_sections`) no longer occurs
in the truncated text. -/
theorem remove_dup_section_removes (clean_text s : Str)
    (hfind : reference_sections.find? (fun t => pyContains t clean_text) = some s) :
    pyContains s (remove_duplicate_reference_section clean_text) = false := by
  have hs_ne : s ≠ [] := by
    have hmem : s ∈ reference_sections := List.mem_of_find?_eq_some hfind
    simp only [reference_sections, List.mem_cons, List.not_mem_nil, or_false] at hmem
    rcases hmem with rfl | rfl | rfl | rfl <;> decide
  unfold remove_duplicate_reference_section
  rw [hfind]
  show pyContains s (pyStrip ((pySplitS s clean_text).headD [])) = false
  rw [pySplitS_headD hs_ne]
  exact pyContains_pyStrip_of_not (pyContains_beforeFirstSub s hs_ne clean_text)

/-- C5 (counterexample): the claim says the final document contains no
duplicate `References`/`Sources`/`Bibliography` heading outside the
reattached citations section.  The removal loop (lines 88-93) checks the
heading types in a fixed order and truncates at the *first occurrence of
the first matching type*; when the formatted body contains
`## Bibliography` *before* `## References`, the loop matches
`## References` first and truncation keeps the earlier `## Bibliography`,
which survives into the final document outside the citations section. -/
theorem c5_counterexample :
    (format_report_as_markdown
        (fun _ _ => "Intro\n\n## Bibliography\n\nOld refs\n\n## References\n\nMore".data)
        "q".data
        "Body text\n\n## Sources and Citations\n\n1. [A](http://a.com)\n".data
      = "Intro\n\n## Bibliography\n\nOld refs\n\n## Sources and Citations\n\n1. [A](http://a.com)\n".data) ∧
    (pyContains "## Bibliography".data
      (beforeFirstSub scHeading
        (format_report_as_markdown
          (fun _ _ => "Intro\n\n## Bibliography\n\nOld refs\n\n## References\n\nMore".data)
          "q".data
          "Body text\n\n## Sources and Citations\n\n1. [A](http://a.com)\n".data)) = true) := by
  refine ⟨by decide, by decide⟩

/-- C5 (amended): when the synthesized body contains the heading exactly
once (its split on the heading has exactly two parts), the Writing phase
output is the duplicate-pruned formatted body followed by the input's
citations section byte-for-byte (the heading plus everything after it, a
suffix of the input); and of the reference-style headings only the *first
matching type* is guaranteed absent from the part before the reattached
section — a heading of a different type occurring earlier in the formatted
body may survive (see the counterexample). -/
theorem c5_amended (fmt : Str → Str → Str) (q body pre2 post2 : Str)
    (hsplit : pySplitS scHeading body = [pre2, post2]) :
    (format_report_as_markdown fmt q body =
      remove_duplicate_reference_section (fmt q (pyStrip pre2)) ++ "\n\n".data ++
        (scHeading ++ post2)) ∧
    (body = pre2 ++ (scHeading ++ post2)) ∧
    (∀ s, reference_sections.find? (fun t => pyContains t (fmt q (pyStrip pre2))) = some s →
      pyContains s (remove_duplicate_reference_section (fmt q (pyStrip pre2))) = false) := by
  have hsep : scHeading ≠ [] := by decide
  have hbody : body = pre2 ++ scHeading ++ post2 := pySplitS_pair hsep hsplit
  have hbody' : body = pre2 ++ (scHeading ++ post2) := by rw [hbody, List.append_assoc]
  have hne : body.isEmpty = false := by
    rw [Bool.eq_false_iff]
    intro hcon
    have hbnil : body = [] := List.isEmpty_iff.mp hcon
    rw [hbody'] at hbnil
    rcases List.append_eq_nil.mp hbnil with ⟨-, h2⟩
    rcases List.append_eq_nil.mp h2 with ⟨h3, -⟩
    exact absurd h3 (by decide)
  have hcont : pyContains scHeading body = true := by
    rw [hbody]; exact pyContains_sandwich scHeading pre2 post2
  have hcs : (scHeading ++ post2).isEmpty = false := rfl
  refine ⟨?_, hbody', fun s hf => remove_dup_section_removes _ s hf⟩
  simp only [format_report_as_markdown, hne, Bool.false_eq_true, if_false, hcont, if_true,
    hsplit]
  simp [hcs]

/-- C5 (witness for the amended theorem): a concrete body with one heading
occurrence and a formatted output containing a `## References` section. -/
theorem c5_witness :
    (format_report_as_markdown (fun _ _ => "X\n\n## References\nY".data) "q".data
      "B\n\n## Sources and Citations\nZ".data = "X\n\n## Sources and Citations\nZ".data) ∧
    (pyContains "## References".data
      (remove_duplicate_reference_section
        ((fun _ _ => "X\n\n## References\nY".data) "q".data (pyStrip "B\n\n".data))) = false) := by
  have h := c5_amended (fun _ _ => "X\n\n## References\nY".data) "q".data
    "B\n\n## Sources and Citations\nZ".data "B\n\n".data "\nZ".data (by decide)
  refine ⟨?_, h.2.2 "## References".data (by decide)⟩
  rw [h.1]; decide

/-! ## Task-extraction analysis (towards C8) -/

theorem pyStrip_eq_self_of {s : Str} (h1 : s.dropWhile isWs = s)
    (h2 : s.reverse.dropWhile isWs = s.reverse) : pyStrip s = s := by
  unfold pyStrip
  rw [h1, h2, List.reverse_reverse]

theorem dropWhile_append_of_ne {p : Char → Bool} {l : Str} (hne : l ≠ [])
    (h : l.dropWhile p = l) (t : Str) : (l ++ t).dropWhile p = l ++ t := by
  cases l with
  | nil => exact absurd rfl hne
  | cons c tl =>
    have hpc : p c = false := by
      cases hpc' : p c with
      | false => rfl
      | true =>
        exfalso
        rw [List.dropWhile_cons, hpc', if_pos rfl] at h
        have hlen := congrArg List.length h
        have hle : (List.dropWhile p tl).length ≤ tl.length :=
          (List.dropWhile_sublist p).length_le
        simp only [List.length_cons] at hlen
        omega
    show List.dropWhile p (c :: (tl ++ t)) = c :: (tl ++ t)
    rw [List.dropWhile_cons, hpc]
    simp

theorem takeWhile_eq_self_of {p : Char → Bool} {l : Str}
    (h : ∀ c ∈ l, p c = true) : l.takeWhile p = l := by
  induction l with
  | nil => rfl
  | cons c tl ih =>
    rw [List.takeWhile_cons_of_pos (h c (List.mem_cons_self c tl))]
    rw [ih (fun d hd => h d (List.mem_cons_of_mem c hd))]

theorem matchInnerSearch_none {s : Str} (h1 : '\'' ∉ s) (h2 : '"' ∉ s) :
    matchInnerSearch s = none := by
  unfold matchInnerSearch
  by_cases hp : ciPre "search for:".data s = true
  · rw [if_pos hp]
    cases hr : (s.drop 11).dropWhile isWs with
    | nil => rfl
    | cons q rest =>
      have hq_mem : q ∈ s := by
        have ha : q ∈ (s.drop 11).dropWhile isWs := hr ▸ List.mem_cons_self q rest
        have hb : q ∈ s.drop 11 := (List.dropWhile_sublist isWs).subset ha
        exact (List.drop_sublist 11 s).subset hb
      have hq : ¬ (q = '\'' ∨ q = '"') := by
        rintro (rfl | rfl)
        · exact h1 hq_mem
        · exact h2 hq_mem
      show (if q = '\'' ∨ q = '"' then takeToQuote rest else none) = none
      rw [if_neg hq]
  · rw [if_neg hp]

theorem matchSearchTail_none {s : Str} (h1 : '\'' ∉ s) (h2 : '"' ∉ s) :
    matchSearchTail s = none := by
  unfold matchSearchTail
  exact matchInnerSearch_none
    (fun hm => h1 ((List.dropWhile_sublist isWs).subset hm))
    (fun hm => h2 ((List.dropWhile_sublist isWs).subset hm))

theorem matchDotTag_subset {s afterTag : Str} (h : matchDotTag s = some afterTag) :
    ∀ c ∈ afterTag, c ∈ s := by
  unfold matchDotTag at h
  cases hs2 : (s.dropWhile isWs).dropWhile Char.isDigit with
  | nil => rw [hs2] at h; cases h
  | cons c rest =>
    rw [hs2] at h
    have h' : (if c = '.' then
        if ciPre resTag (rest.dropWhile isWs) then
          some ((rest.dropWhile isWs).drop resTag.length)
        else none
      else none) = some afterTag := h
    by_cases hc : c = '.'
    · rw [if_pos hc] at h'
      by_cases hci : ciPre resTag (rest.dropWhile isWs) = true
      · rw [if_pos hci] at h'
        injection h' with h'
        subst h'
        intro d hd
        have h1 : d ∈ rest.dropWhile isWs := (List.drop_sublist _ _).subset hd
        have h2 : d ∈ rest := (List.dropWhile_sublist isWs).subset h1
        have h3 : d ∈ (s.dropWhile isWs).dropWhile Char.isDigit := by
          rw [hs2]; exact List.mem_cons_of_mem c h2
        have h4 : d ∈ s.dropWhile isWs := (List.dropWhile_sublist Char.isDigit).subset h3
        exact (List.dropWhile_sublist isWs).subset h4
      · rw [if_neg hci] at h'; cases h'
    · rw [if_neg hc] at h'; cases h'

theorem matchSpecific_none {s : Str} (h1 : '\'' ∉ s) (h2 : '"' ∉ s) :
    matchSpecific s = none := by
  unfold matchSpecific
  cases hm : matchDotTag s with
  | none => rfl
  | some afterTag =>
    exact matchSearchTail_none
      (fun hq => h1 (matchDotTag_subset hm '\'' hq))
      (fun hq => h2 (matchDotTag_subset hm '"' hq))

theorem matchDotTag_none_of_no_dot {s : Str} (h : '.' ∉ s) :
    matchDotTag s = none := by
  unfold matchDotTag
  cases hs2 : (s.dropWhile isWs).dropWhile Char.isDigit with
  | nil => rfl
  | cons c rest =>
    have hc_mem : c ∈ s := by
      have h3 : c ∈ (s.dropWhile isWs).dropWhile Char.isDigit := by
        rw [hs2]; exact List.mem_cons_self c rest
      have h4 : c ∈ s.dropWhile isWs := (List.dropWhile_sublist Char.isDigit).subset h3
      exact (List.dropWhile_sublist isWs).subset h4
    have hc : ¬ c = '.' := fun he => h (he ▸ hc_mem)
    show (if c = '.' then
        if ciPre resTag (rest.dropWhile isWs) then
          some ((rest.dropWhile isWs).drop resTag.length)
        else none
      else none) = none
    rw [if_neg hc]

theorem searchPos_none {P : Char → Prop} (m : Str → Option Str)
    (hm : ∀ s : Str, (∀ c ∈ s, P c) → m s = none) :
    ∀ xs : Str, (∀ c ∈ xs, P c) → searchPos m xs = none := by
  intro xs
  induction xs with
  | nil => intro h; exact hm [] h
  | cons c rest ih =>
    intro h
    show (match m (c :: rest) with
      | some r => some r
      | none => searchPos m rest) = none
    rw [hm _ h]
    exact ih (fun d hd => h d (List.mem_cons_of_mem c hd))

/-- C8 (counterexample): the claim says every tag line without a quoted
search pattern yields the remainder after the tag, numbering and tag
removed.  But both regexes require a literal `.` (of `\s*\d*\.`)
immediately before the tag, so on a tag line with no numbering dot neither
matches, and `task_description` keeps its default — the *entire* line,
tag included (lines 79 and 107-108 of the planner). -/
theorem c8_counterexample :
    (extract_research_tasks_from_plan "[ResearchAgent] Summarize drug discovery trends".data
      = ["[ResearchAgent] Summarize drug discovery trends".data]) ∧
    ("[ResearchAgent] Summarize drug discovery trends".data ≠
      "Summarize drug discovery trends".data) := by
  refine ⟨by decide, by decide⟩

/-- C8 (amended): for a plan line `"2. [ResearchAgent] <desc>"` whose
description is trimmed, non-empty and free of newlines and quote
characters, the extracted task is exactly `<desc>` (numbering and tag
removed); but a tag line with no numbering dot before the tag keeps the
whole line: for `"[ResearchAgent] <desc>"` with additionally no `.` in the
description, the extracted task is the entire line including the tag. -/
theorem c8_amended (desc : Str) (hne : desc ≠ [])
    (hlead : desc.dropWhile isWs = desc)
    (htrail : desc.reverse.dropWhile isWs = desc.reverse)
    (hnl : '\n' ∉ desc) (hq1 : '\'' ∉ desc) (hq2 : '"' ∉ desc) :
    (extract_research_tasks_from_plan ("2. [ResearchAgent] ".data ++ desc) = [desc]) ∧
    ('.' ∉ desc →
      extract_research_tasks_from_plan ("[ResearchAgent] ".data ++ desc)
        = ["[ResearchAgent] ".data ++ desc]) := by
  have hrevne : desc.reverse ≠ [] := by
    intro hc
    exact hne (by simpa using congrArg List.reverse hc)
  have hie : desc.isEmpty = false := by
    cases desc with
    | nil => exact absurd rfl hne
    | cons a b => rfl
  have hstripd : pyStrip desc = desc := pyStrip_eq_self_of hlead htrail
  constructor
  · -- the numbered line
    have hstrip : pyStrip ("2. [ResearchAgent] ".data ++ desc)
        = "2. [ResearchAgent] ".data ++ desc := by
      refine pyStrip_eq_self_of rfl ?_
      rw [List.reverse_append]
      exact dropWhile_append_of_ne hrevne htrail _
    have hnl_plan : '\n' ∉ "2. [ResearchAgent] ".data ++ desc := by
      intro hm
      rcases List.mem_append.mp hm with hmm | hmm
      · exact absurd hmm (by decide)
      · exact hnl hmm
    have hq_plan : ∀ c ∈ "2. [ResearchAgent] ".data ++ desc, c ≠ '\'' ∧ c ≠ '"' := by
      intro c hcm
      rcases List.mem_append.mp hcm with hmm | hmm
      · refine ⟨fun he => ?_, fun he => ?_⟩ <;> (subst he; exact absurd hmm (by decide))
      · exact ⟨fun he => hq1 (he ▸ hmm), fun he => hq2 (he ▸ hmm)⟩
    have hspec : searchPos matchSpecific ("2. [ResearchAgent] ".data ++ desc) = none := by
      refine searchPos_none matchSpecific ?_ _ hq_plan
      intro s hs
      exact matchSpecific_none (fun hm => (hs _ hm).1 rfl) (fun hm => (hs _ hm).2 rfl)
    have hgen : searchPos matchDotTag ("2. [ResearchAgent] ".data ++ desc)
        = some (' ' :: desc) := rfl
    have hcont : pyContains resTag ("2. [ResearchAgent] ".data ++ desc) = true := by
      have he : "2. [ResearchAgent] ".data ++ desc
          = "2. ".data ++ resTag ++ (' ' :: desc) := rfl
      rw [he]
      exact pyContains_sandwich resTag "2. ".data (' ' :: desc)
    have htd : pyStrip (((' ' :: desc).dropWhile isWs).takeWhile (fun c => c ≠ '\n'))
        = desc := by
      have h1 : (' ' :: desc).dropWhile isWs = desc := by
        rw [List.dropWhile_cons]
        simp only [show isWs ' ' = true from rfl, if_true]
        exact hlead
      rw [h1, takeWhile_eq_self_of (fun c hc => by
        simp only [decide_eq_true_eq]
        exact fun he => hnl (he ▸ hc)), hstripd]
    have hinner : matchInnerSearch desc = none := matchInnerSearch_none hq1 hq2
    have hproc : processTaskLine ("2. [ResearchAgent] ".data ++ desc) = some desc := by
      unfold processTaskLine
      rw [hstrip]
      simp only [processStrippedLine, hcont, if_true, hspec, hgen, htd, hinner, hie,
        Bool.false_eq_true, if_false]
    have hguard : (("2. [ResearchAgent] ".data ++ desc).isEmpty
        || pyStartsWith "Error:".data ("2. [ResearchAgent] ".data ++ desc)) = false := rfl
    have hsplitLine : splitChar '\n' (pyStrip ("2. [ResearchAgent] ".data ++ desc))
        = ["2. [ResearchAgent] ".data ++ desc] := by
      rw [hstrip]
      exact splitChar_of_not_mem hnl_plan
    unfold extract_research_tasks_from_plan
    rw [hguard]
    simp only [Bool.false_eq_true, if_false]
    rw [hsplitLine]
    simp only [List.filterMap_cons, hproc, List.filterMap_nil]
  · -- the dotless line
    intro hdot
    have hstrip2 : pyStrip ("[ResearchAgent] ".data ++ desc)
        = "[ResearchAgent] ".data ++ desc := by
      refine pyStrip_eq_self_of rfl ?_
      rw [List.reverse_append]
      exact dropWhile_append_of_ne hrevne htrail _
    have hnl_plan2 : '\n' ∉ "[ResearchAgent] ".data ++ desc := by
      intro hm
      rcases List.mem_append.mp hm with hmm | hmm
      · exact absurd hmm (by decide)
      · exact hnl hmm
    have hq_plan2 : ∀ c ∈ "[ResearchAgent] ".data ++ desc, c ≠ '\'' ∧ c ≠ '"' := by
      intro c hcm
      rcases List.mem_append.mp hcm with hmm | hmm
      · refine ⟨fun he => ?_, fun he => ?_⟩ <;> (subst he; exact absurd hmm (by decide))
      · exact ⟨fun he => hq1 (he ▸ hmm), fun he => hq2 (he ▸ hmm)⟩
    have hdot_plan2 : ∀ c ∈ "[ResearchAgent] ".data ++ desc, c ≠ '.' := by
      intro c hcm
      rcases List.mem_append.mp hcm with hmm | hmm
      · intro he; subst he; exact absurd hmm (by decide)
      · exact fun he => hdot (he ▸ hmm)
    have hspec2 : searchPos matchSpecific ("[ResearchAgent] ".data ++ desc) = none := by
      refine searchPos_none matchSpecific ?_ _ hq_plan2
      intro s hs
      exact matchSpecific_none (fun hm => (hs _ hm).1 rfl) (fun hm => (hs _ hm).2 rfl)
    have hgen2 : searchPos matchDotTag ("[ResearchAgent] ".data ++ desc) = none := by
      refine searchPos_none matchDotTag ?_ _ hdot_plan2
      intro s hs
      exact matchDotTag_none_of_no_dot (fun hm => hs '.' hm rfl)
    have hcont2 : pyContains resTag ("[ResearchAgent] ".data ++ desc) = true :=
      pyContains_sandwich resTag [] (' ' :: desc)
    have hie2 : ("[ResearchAgent] ".data ++ desc).isEmpty = false := rfl
    have hproc2 : processTaskLine ("[ResearchAgent] ".data ++ desc)
        = some ("[ResearchAgent] ".data ++ desc) := by
      unfold processTaskLine
      rw [hstrip2]
      simp only [processStrippedLine, hcont2, if_true, hspec2, hgen2, hie2,
        Bool.false_eq_true, if_false]
    have hguard2 : (("[ResearchAgent] ".data ++ desc).isEmpty
        || pyStartsWith "Error:".data ("[ResearchAgent] ".data ++ desc)) = false := rfl
    have hsplitLine2 : splitChar '\n' (pyStrip ("[ResearchAgent] ".data ++ desc))
        = ["[ResearchAgent] ".data ++ desc] := by
      rw [hstrip2]
      exact splitChar_of_not_mem hnl_plan2
    unfold extract_research_tasks_from_plan
    rw [hguard2]
    simp only [Bool.false_eq_true, if_false]
    rw [hsplitLine2]
    simp only [List.filterMap_cons, hproc2, List.filterMap_nil]

/-- C8 (witness for the amended theorem): the spec's own example line in
both forms. -/
theorem c8_witness :
    (extract_research_tasks_from_plan
        "2. [ResearchAgent] Summarize drug discovery trends".data
      = ["Summarize drug discovery trends".data]) ∧
    (extract_research_tasks_from_plan
        "[ResearchAgent] Summarize drug discovery trends".data
      = ["[ResearchAgent] Summarize drug discovery trends".data]) := by
  have h := c8_amended "Summarize drug discovery trends".data (by decide) (by decide)
    (by decide) (by decide) (by decide) (by decide)
  exact ⟨h.1, h.2 (by decide)⟩
